import Mathlib

/-!
Shallow embedding of the `gold_2` blockchain core (`src/src/lib.rs`).

Modelling conventions:
* `[u8; N]` values and Rust `String`s are byte lists (`List Nat`, each entry `< 256`);
  strings are represented by their UTF-8 byte lists.
* `u64` / `usize` arithmetic is carried out on `ℕ`; `-=` is `Nat.sub` (every input
  considered in the theorems below keeps all intermediate values inside `u64` range
  and never underflows, so wrapping plays no role).
* `HashMap` is modelled as an association list with at most one binding per key;
  the code only uses point-wise operations (`get`, `insert`, `remove`,
  `entry().and_modify()`, `entry().and_modify().or_insert()`, indexing), never
  iteration, so the association-list model is observationally faithful.
* Rust panics (out-of-bounds indexing, `unwrap` on `None`, `HashMap` indexing with a
  missing key) are modelled by `Option`: `none` is a panic.
* SHA-256 and secp256k1 Schnorr verification are opaque to the logic; every function
  that uses them takes them as parameters
  (`hash : List Nat → List Nat`, `isPoint : List Nat → Bool`,
  `verify : (sig msg pk : List Nat) → Bool`).
-/

namespace Gold2

/-- Rust `Address`: tagged union of a 32-byte key and a name (UTF-8 bytes). -/
inductive Address where
  | key (k : List Nat)
  | name (n : List Nat)
deriving DecidableEq

/-- Rust `Txn`. -/
structure Txn where
  sender : Address
  recievers : List (Address × Nat)
  signature : List Nat
  fee : Nat
deriving DecidableEq

/-- Rust `RenameOp`. -/
structure RenameOp where
  pk : List Nat
  sig : List Nat
  newName : List Nat
  fee : Nat
deriving DecidableEq

/-- Rust `Header`. -/
structure Header where
  prevBlockHash : List Nat
  merkleRoot : List Nat
  time : Nat
  nonce : Nat
deriving DecidableEq

/-- Rust `Block`. -/
structure Block where
  header : Header
  txns : List Txn
  nameChanges : List RenameOp
deriving DecidableEq

/-- `type Accounts = HashMap<[u8; 32], u64>` as an association list. -/
abbrev AccountMap := List (List Nat × Nat)

/-- `type Names = HashMap<String, [u8; 32]>` as an association list. -/
abbrev NameMap := List (List Nat × List Nat)

/-- Rust `BlockchainState` (field `previous_block` holds a whole `Block`). -/
structure BlockchainState where
  accountSet : AccountMap
  nameSet : NameMap
  difficulty : List Nat
  height : Nat
  last720Times : List Nat
  last100BlockSizes : List Nat
  previousBlock : Block
deriving DecidableEq

/-- Rust `RenameOpUndo`. -/
structure RenameOpUndo where
  oldPk : Option (List Nat)
  name : List Nat
  fee : Nat
deriving DecidableEq

/-- Rust `UndoBlock`. Note: the source struct has exactly these four fields;
it stores no previous header. -/
structure UndoBlock where
  removedTime : Nat
  removedBlockSize : Nat
  txns : List Txn
  nameChanges : List RenameOpUndo
deriving DecidableEq

/-- Rust `enum Error` (`thiserror` messages elided; the payload strings are kept). -/
inductive Error where
  | blockValidationError (msg : String)
  | txnValidationError (msg : String)
  | missingDataError
deriving DecidableEq

/-- `HEADER_SIZE`. -/
def HEADER_SIZE : Nat := 80

/-- `TXN_FEES_PER_BYTE`. -/
def TXN_FEES_PER_BYTE : Nat := 400000

/-- `NAME_CHANGE_FEES_PER_BYTE`. -/
def NAME_CHANGE_FEES_PER_BYTE : Nat := 100000000

/-- `DEFAULT_COINBASE`. -/
def DEFAULT_COINBASE : Nat := 200000000000

/-! ### Association-list map primitives (the HashMap operations the source uses) -/

/-- `HashMap::get`. -/
def alookup : List (List Nat × α) → List Nat → Option α
  | [], _ => none
  | p :: rest, k => if p.1 = k then some p.2 else alookup rest k

/-- `HashMap::contains_key`. -/
def acontains (m : List (List Nat × α)) (k : List Nat) : Bool :=
  (alookup m k).isSome

/-- `entry(k).and_modify(f)`: update the binding if present, change nothing otherwise. -/
def andModify (m : List (List Nat × α)) (k : List Nat) (f : α → α) : List (List Nat × α) :=
  m.map fun p => if p.1 = k then (p.1, f p.2) else p

/-- `entry(k).and_modify(f).or_insert(v)`. -/
def andModifyOrInsert (m : List (List Nat × α)) (k : List Nat) (f : α → α) (v : α) :
    List (List Nat × α) :=
  if acontains m k then andModify m k f else m ++ [(k, v)]

/-- `HashMap::insert` (replace the binding, or add it). -/
def ainsert (m : List (List Nat × α)) (k : List Nat) (v : α) : List (List Nat × α) :=
  if acontains m k then andModify m k (fun _ => v) else m ++ [(k, v)]

/-- `HashMap::remove`. -/
def aremove (m : List (List Nat × α)) (k : List Nat) : List (List Nat × α) :=
  m.filter fun p => p.1 ≠ k

/-! ### Codec (`encode_*`, `block_size`) -/

/-- `u64::to_le_bytes`: the eight little-endian bytes of `x` (for `x < 2 ^ 64`). -/
def leBytes8 (x : Nat) : List Nat :=
  [x % 256, x / 256 % 256, x / 256 ^ 2 % 256, x / 256 ^ 3 % 256,
   x / 256 ^ 4 % 256, x / 256 ^ 5 % 256, x / 256 ^ 6 % 256, x / 256 ^ 7 % 256]

/-- `encode_address`: tag byte `0` + 32 raw key bytes, or tag byte `1` + length byte
(`len as u8`, hence `% 256`) + name bytes. -/
def encodeAddress : Address → List Nat
  | .key k => 0 :: k
  | .name n => 1 :: (n.length % 256) :: n

/-- The receiver section of `encode_txn`: each receiver is its encoded address
followed by the eight little-endian amount bytes, in block order. -/
def encodeRecievers : List (Address × Nat) → List Nat
  | [] => []
  | r :: rest => encodeAddress r.1 ++ leBytes8 r.2 ++ encodeRecievers rest

/-- `encode_txn`. -/
def encodeTxn (t : Txn) : List Nat :=
  encodeAddress t.sender ++ [t.recievers.length % 256] ++ encodeRecievers t.recievers
    ++ t.signature ++ leBytes8 t.fee

/-- `encode_header`: 80 bytes `prev_block_hash ‖ merkle_root ‖ time_le8 ‖ nonce_le8`
(the two hash fields are 32-byte arrays in the source). -/
def encodeHeader (h : Header) : List Nat :=
  h.prevBlockHash ++ h.merkleRoot ++ leBytes8 h.time ++ leBytes8 h.nonce

/-- `encode_name_change`: `pk ‖ sig ‖ name_len_u8 ‖ name_bytes ‖ fee_le8`. -/
def encodeNameChange (op : RenameOp) : List Nat :=
  op.pk ++ op.sig ++ [op.newName.length % 256] ++ op.newName ++ leBytes8 op.fee

/-- `block_size`: header size, two 4-byte counts, and the encoded lengths of every
transaction and rename operation. -/
def blockSize (b : Block) : Nat :=
  HEADER_SIZE + 4 + (b.txns.map fun t => (encodeTxn t).length).sum
    + 4 + (b.nameChanges.map fun r => (encodeNameChange r).length).sum

/-- `txn_total_spend`: sum of the receiver amounts plus the fee. -/
def txnTotalSpend (t : Txn) : Nat :=
  (t.recievers.map fun r => r.2).sum + t.fee

/-! ### Address resolution -/

/-- `address_to_key_unchecked`: panics (`none`) when a name is absent from the map. -/
def addressToKeyUnchecked (a : Address) (names : NameMap) : Option (List Nat) :=
  match a with
  | .name n => alookup names n
  | .key k => some k

/-- `address_to_key`: a missing name is `MissingDataError`. -/
def addressToKey (a : Address) (names : NameMap) : Except Error (List Nat) :=
  match a with
  | .name n =>
      match alookup names n with
      | some k => .ok k
      | none => .error .missingDataError
  | .key k => .ok k

/-! ### Rolling windows (`push_to_front`, `push_to_back`) -/

/-- Read `arr[i]`; out of bounds is a panic. -/
def getP (l : List α) (i : Nat) : Option α := l.get? i

/-- Write `arr[i] = v`; out of bounds is a panic. -/
def setP (l : List α) (i : Nat) (v : α) : Option (List α) :=
  if i < l.length then some (l.set i v) else none

/-- `push_to_front(arr, item)`: returns `arr[0]`, shifts every element one position
toward index 0 and writes `item` at the top index. Panics on an empty array
(both `arr[0]` and `arr.len() - 1` fail there). -/
def pushToFront (l : List α) (item : α) : Option (α × List α) :=
  match l with
  | [] => none
  | x :: xs => some (x, xs ++ [item])

/-- The body of the `for i in start..(start + count)` loop of `push_to_back`:
`arr[i + 1] = arr[i]` at each step, with Rust indexing panics. -/
def pushToBackIter (l : List α) (i : Nat) : Nat → Option (List α)
  | 0 => some l
  | count + 1 =>
      match getP l i with
      | none => none
      | some x =>
          match setP l (i + 1) x with
          | none => none
          | some l2 => pushToBackIter l2 (i + 1) count

/-- `push_to_back(arr, item)` exactly as written in the source:
`for i in 1..arr.len() { arr[i + 1] = arr[i]; } arr[0] = item;`.
The final loop iteration writes `arr[arr.len()]`. -/
def pushToBack (l : List α) (item : α) : Option (List α) :=
  match pushToBackIter l 1 (l.length - 1) with
  | none => none
  | some l2 => setP l2 0 item

/-! ### Difficulty, sorting, median, coinbase -/

/-- `meets_difficulty`: byte-wise comparison from index 0; the first strictly smaller
byte accepts, the first strictly larger byte rejects, full equality accepts.
(The source iterates `0..32` over two `[u8; 32]`; the recursion consumes the two
equal-length byte lists in the same order.) -/
def meetsDifficulty : List Nat → List Nat → Bool
  | v :: vs, d :: ds =>
      if v < d then true
      else if d < v then false
      else meetsDifficulty vs ds
  | _, _ => true

/-- Insert into a sorted list (ascending). -/
def insertSorted (x : Nat) : List Nat → List Nat
  | [] => [x]
  | y :: ys => if x ≤ y then x :: y :: ys else y :: insertSorted x ys

/-- Ascending sort. Models `sort_unstable` on `usize`: on natural numbers every
sorting algorithm produces the same list, so the choice of algorithm is
unobservable. -/
def insertionSort : List Nat → List Nat
  | [] => []
  | x :: xs => insertSorted x (insertionSort xs)

/-- `median_block_size`: element at index 50 of the sorted copy; indexing out of
bounds (a window shorter than 51) is a panic. -/
def medianBlockSize (l : List Nat) : Option Nat :=
  (insertionSort l).get? 50

/-- `calc_coinbase`. The source computes in `f64`; this embedding evaluates the same
expression in exact rational arithmetic and models the `as u64` cast explicitly:
truncation toward zero and clamping of negatives (`Int.toNat ∘ Int.floor` on the
non-negative square), saturation at `u64::MAX = 2 ^ 64 - 1` for values at or above
`2 ^ 64`, and the wrapping of the final `u64` multiplication `* 1_000` (`% 2 ^ 64`).
What the rational model does not capture is IEEE-754 rounding of inexact
intermediate operations. Accordingly the theorems below about the guarded branch
are stated only on input families on which every `f64` operation of the source is
exact — an integer quotient `(B - 10000 - M) / M = k` with all intermediate values
below `2 ^ 53` — or at such concrete inputs; there (and on the unguarded branch,
whose comparisons on integers below `2 ^ 53` are exact) the rational model agrees
with the `f64` code bit for bit, and it reproduces all six `calc_coinbase` test
vectors of the repository. -/
def calcCoinbase (blockSize medianBlockSize : Nat) : Nat :=
  let b : ℚ := blockSize
  let m : ℚ := medianBlockSize
  if b - m > 10000 ∧ b - 10000 > m then
    let percent : ℚ := 1 - ((b - 10000 - m) / m)
    min (Int.floor ((DEFAULT_COINBASE : ℚ) / 1000 * percent ^ 2)).toNat (2 ^ 64 - 1)
      * 1000 % 2 ^ 64
  else
    DEFAULT_COINBASE

/-! ### Hashing and the Merkle commitment (parameterised by the hash oracle) -/

/-- `txn_hash`. -/
def txnHash (hash : List Nat → List Nat) (t : Txn) : List Nat :=
  hash (encodeTxn t)

/-- `name_change_hash`. -/
def nameChangeHash (hash : List Nat → List Nat) (op : RenameOp) : List Nat :=
  hash (encodeNameChange op)

/-- `hash_header`. -/
def hashHeader (hash : List Nat → List Nat) (h : Header) : List Nat :=
  hash (encodeHeader h)

/-- One level of the Merkle loop: adjacent pairs are concatenated into the 64-byte
buffer and hashed; an odd final leaf is paired with itself. (Each hash in the list
is 32 bytes whenever the oracle returns 32 bytes, matching the `copy_from_slice` of the source into `[u8; 64]`.) -/
def merkleLevel (hash : List Nat → List Nat) : List (List Nat) → List (List Nat)
  | [] => []
  | [x] => [hash (x ++ x)]
  | x :: y :: rest => hash (x ++ y) :: merkleLevel hash rest

/-- The `while hashes.len() > 1` loop, with enough fuel to reach a single hash. -/
def merkleLoop (hash : List Nat → List Nat) : Nat → List (List Nat) → List (List Nat)
  | 0, hs => hs
  | fuel + 1, hs => if hs.length ≤ 1 then hs else merkleLoop hash fuel (merkleLevel hash hs)

/-- `merkle_root`: all-zero for an empty block, otherwise the iterated pairing over
transaction hashes followed by rename hashes. -/
def merkleRoot (hash : List Nat → List Nat) (txns : List Txn) (ncs : List RenameOp) :
    List Nat :=
  if txns.length = 0 ∧ ncs.length = 0 then
    List.replicate 32 0
  else
    let hs := txns.map (txnHash hash) ++ ncs.map (nameChangeHash hash)
    match merkleLoop hash hs.length hs with
    | h :: _ => h
    | [] => []  -- unreachable: the leaf list is non-empty and every level keeps it so

/-! ### Rename validation -/

/-- `check_name_change`. The source computes a `signer` (the current owner of
`new_name` when the name exists, `pk` itself otherwise) — unwrapping the key bytes of the owner, a panic if they are not a curve point — but the Schnorr verification on the
next lines is performed against `pk`, leaving `signer` unused. -/
def checkNameChange (isPoint : List Nat → Bool)
    (verify : List Nat → List Nat → List Nat → Bool) (hash : List Nat → List Nat)
    (op : RenameOp) (names : NameMap) : Option (Except Error Unit) :=
  if !isPoint op.pk then
    some (.error (.txnValidationError
      "Rename operation used a pk that is not a point on the curve"))
  else
    -- `signer` computation (observable only through the `.unwrap()` panic):
    let ownerOk : Bool :=
      match alookup names op.newName with
      | some owner => isPoint owner
      | none => true
    if !ownerOk then none
    else
      let encodedOp := encodeNameChange op
      if !verify op.sig (hash encodedOp) op.pk then
        some (.error (.txnValidationError "Name-change signature was invalid"))
      else
        let fee := encodedOp.length * NAME_CHANGE_FEES_PER_BYTE
        if op.fee < fee then
          some (.error (.txnValidationError "Rename does not pay enough in fees"))
        else if op.newName.length > 255 then
          some (.error (.txnValidationError "New name was greater than 255 bytes"))
        else
          some (.ok ())

/-- `check_name_changes`: every operation in order, short-circuiting. -/
def checkNameChanges (isPoint : List Nat → Bool)
    (verify : List Nat → List Nat → List Nat → Bool) (hash : List Nat → List Nat)
    (ops : List RenameOp) (names : NameMap) : Option (Except Error Unit) :=
  match ops with
  | [] => some (.ok ())
  | op :: rest =>
      match checkNameChange isPoint verify hash op names with
      | none => none
      | some (.error e) => some (.error e)
      | some (.ok _) => checkNameChanges isPoint verify hash rest names

/-! ### Transaction validation -/

/-- `check_txn`: resolve the sender, check the key is a curve point, Schnorr-verify
over the encoding with the signature bytes zeroed, require the sender in the account
set, and enforce the per-byte fee floor. (The Schnorr-failure message comes from the
error display of the library; no theorem below depends on its text.) -/
def checkTxn (isPoint : List Nat → Bool)
    (verify : List Nat → List Nat → List Nat → Bool)
    (t : Txn) (st : BlockchainState) : Except Error Unit := do
  let senderKey ← addressToKey t.sender st.nameSet
  if !isPoint senderKey then
    throw (.txnValidationError "The sender public key is not a point on the curve")
  let tZero : Txn := { t with signature := List.replicate 64 0 }
  if !verify t.signature (encodeTxn tZero) senderKey then
    throw (.txnValidationError "signature failed verification")
  if !acontains st.accountSet senderKey then
    throw (.txnValidationError "The sender pk is not in the account set")
  let size := (encodeTxn tZero).length
  let minFee := TXN_FEES_PER_BYTE * size
  if t.fee < minFee then
    throw (.txnValidationError "Txn does not pay enough in fees")
  pure ()

/-- The indexed loop of `check_txns`: index 0 (the coinbase) is skipped; each later
transaction passes `check_txn`, then the cumulative-spend check against the balance of the sender. The running `total_spend` map is updated with
`entry(sender).and_modify(|a| *a += spend)` — exactly as in the source, with no
`or_insert`. Returns the accumulated fees and the final spend map. -/
def checkTxnsLoop (isPoint : List Nat → Bool)
    (verify : List Nat → List Nat → List Nat → Bool) (st : BlockchainState) :
    List Txn → Nat → Nat → AccountMap → Option (Except Error (Nat × AccountMap))
  | [], _, fees, totalSpend => some (.ok (fees, totalSpend))
  | t :: rest, i, fees, totalSpend =>
      if i = 0 then
        checkTxnsLoop isPoint verify st rest (i + 1) fees totalSpend
      else
        match checkTxn isPoint verify t st with
        | .error e => some (.error e)
        | .ok _ =>
            match addressToKeyUnchecked t.sender st.nameSet with
            | none => none
            | some senderKey =>
                match alookup st.accountSet senderKey with
                | none => none  -- the `.unwrap()` on the balance
                | some balance =>
                    let currentSpend := (alookup totalSpend senderKey).getD 0
                    let spend := txnTotalSpend t
                    if spend + currentSpend > balance then
                      some (.error (.txnValidationError
                        "Sender tried to spend more than their balance"))
                    else
                      checkTxnsLoop isPoint verify st rest (i + 1) (fees + t.fee)
                        (andModify totalSpend senderKey (· + spend))

/-- `check_txns`: the per-transaction loop, then the coinbase shape and amount
checks, which index `txn_list[0]` and `txn_list[0].recievers[0]` unconditionally. -/
def checkTxns (isPoint : List Nat → Bool)
    (verify : List Nat → List Nat → List Nat → Bool)
    (txnList : List Txn) (st : BlockchainState) (coinbase : Nat) :
    Option (Except Error Unit) :=
  match checkTxnsLoop isPoint verify st txnList 0 0 [] with
  | none => none
  | some (.error e) => some (.error e)
  | some (.ok (fees, _)) =>
      match txnList.get? 0 with
      | none => none
      | some cb =>
          if cb.recievers.length > 1 then
            some (.error (.txnValidationError "Coinbase txn had more than 1 reciever"))
          else
            match cb.recievers.get? 0 with
            | none => none  -- `recievers[0]` on an empty list: a panic
            | some r =>
                if r.2 > coinbase + fees then
                  some (.error (.txnValidationError
                    "Coinbase transaction produces more currency than allowed"))
                else
                  some (.ok ())

/-! ### Block validation -/

/-- `validate_block`: header checks in source order, the size ceiling, `check_txns`
with `calc_coinbase(block_size, median)`, then `check_name_changes`. -/
def validateBlock (isPoint : List Nat → Bool)
    (verify : List Nat → List Nat → List Nat → Bool) (hash : List Nat → List Nat)
    (b : Block) (st : BlockchainState) : Option (Except Error Unit) :=
  if b.txns.length < 1 then
    some (.error (.blockValidationError
      "The block contains no transactions (coinbase txn is mandatory)"))
  else if !meetsDifficulty (hashHeader hash b.header) st.difficulty then
    some (.error (.blockValidationError "Header hash does not meet required difficulty"))
  else if b.header.time < st.previousBlock.header.time then
    some (.error (.blockValidationError "Block time is less than previous block time"))
  else if merkleRoot hash b.txns b.nameChanges ≠ b.header.merkleRoot then
    some (.error (.blockValidationError
      "Header merkle root does not match calculated merkle root"))
  else if hash (encodeHeader st.previousBlock.header) ≠ b.header.prevBlockHash then
    some (.error (.blockValidationError
      "Header previous block hash does not match calculated hash of previous block"))
  else
    match medianBlockSize st.last100BlockSizes with
    | none => none
    | some median =>
        let bs := blockSize b
        if bs > 20000 ∧ bs > 2 * median then
          some (.error (.blockValidationError "Block is bigger than twice the median block size"))
        else
          match checkTxns isPoint verify b.txns st (calcCoinbase bs median) with
          | none => none
          | some (.error e) => some (.error e)
          | some (.ok _) =>
              match checkNameChanges isPoint verify hash b.nameChanges st.nameSet with
              | none => none
              | some (.error e) => some (.error e)
              | some (.ok _) => some (.ok ())

/-! ### State machine: `push_block` / `pop_block` -/

/-- The receiver loop of the transaction pass of `push_block`:
`entry(key).and_modify(|a| *a += amount).or_insert(amount)`. -/
def applyTxnOutputs (names : NameMap) :
    List (Address × Nat) → AccountMap → Option AccountMap
  | [], acc => some acc
  | (a, amt) :: rest, acc =>
      match addressToKeyUnchecked a names with
      | none => none
      | some k => applyTxnOutputs names rest (andModifyOrInsert acc k (· + amt) amt)

/-- The transaction pass of `push_block`: debit the sender by the total spend
(`entry().and_modify()` — a zero result is left in the map, and an absent sender is
left absent), then credit each receiver. -/
def applyTxns (names : NameMap) : List Txn → AccountMap → Option AccountMap
  | [], acc => some acc
  | t :: rest, acc =>
      match addressToKeyUnchecked t.sender names with
      | none => none
      | some senderKey =>
          match applyTxnOutputs names t.recievers
              (andModify acc senderKey (fun a => a - txnTotalSpend t)) with
          | none => none
          | some acc2 => applyTxns names rest acc2

/-- The name-change pass of `push_block`: record the undo (old owner before the
insert), insert the new owner, then debit the fee from `account_set[&op.pk]`
(indexing — a panic when `pk` has no account), removing the account when the balance
equals the fee. -/
def applyNameChanges :
    List RenameOp → NameMap → AccountMap →
      Option (List RenameOpUndo × NameMap × AccountMap)
  | [], names, acc => some ([], names, acc)
  | op :: rest, names, acc =>
      let undo : RenameOpUndo := ⟨alookup names op.newName, op.newName, op.fee⟩
      let names2 := ainsert names op.newName op.pk
      match alookup acc op.pk with
      | none => none
      | some bal =>
          let acc2 :=
            if bal = op.fee then aremove acc op.pk
            else andModify acc op.pk (fun a => a - op.fee)
          match applyNameChanges rest names2 acc2 with
          | none => none
          | some (undos, names3, acc3) => some (undo :: undos, names3, acc3)

/-- `push_block`: transactions, then name changes, then shift the two rolling
windows. The `height` and `previous_block` fields of the state are not touched, and the
undo record stores no previous header. -/
def pushBlock (b : Block) (st : BlockchainState) : Option (UndoBlock × BlockchainState) :=
  match applyTxns st.nameSet b.txns st.accountSet with
  | none => none
  | some acc1 =>
      match applyNameChanges b.nameChanges st.nameSet acc1 with
      | none => none
      | some (undos, names2, acc2) =>
          match pushToFront st.last720Times b.header.time with
          | none => none
          | some (removedTime, times2) =>
              match pushToFront st.last100BlockSizes (blockSize b) with
              | none => none
              | some (removedSize, sizes2) =>
                  some (⟨removedTime, removedSize, b.txns, undos⟩,
                    { st with
                        accountSet := acc2
                        nameSet := names2
                        last720Times := times2
                        last100BlockSizes := sizes2 })

/-- The name-undo loop of `pop_block`: re-insert the old owner when there was one;
a rename that created the name is left in the map, and no fee is re-credited. -/
def undoNameChanges : List RenameOpUndo → NameMap → NameMap
  | [], names => names
  | u :: rest, names =>
      undoNameChanges rest
        (match u.oldPk with
         | some k => ainsert names u.name k
         | none => names)

/-- The receiver loop of the transaction pass of `pop_block`: `account_set[&key]`
(indexing — a panic when absent); remove the account when the balance equals the
amount, otherwise subtract. -/
def undoTxnOutputs (names : NameMap) :
    List (Address × Nat) → AccountMap → Option AccountMap
  | [], acc => some acc
  | (a, amt) :: rest, acc =>
      match addressToKeyUnchecked a names with
      | none => none
      | some k =>
          match alookup acc k with
          | none => none
          | some bal =>
              let acc2 :=
                if bal = amt then aremove acc k
                else andModify acc k (fun x => x - amt)
              undoTxnOutputs names rest acc2

/-- The transaction pass of `pop_block` (forward iteration, as in the source):
credit the sender back, then debit each receiver. -/
def undoTxns (names : NameMap) : List Txn → AccountMap → Option AccountMap
  | [], acc => some acc
  | t :: rest, acc =>
      match addressToKeyUnchecked t.sender names with
      | none => none
      | some senderKey =>
          match undoTxnOutputs names t.recievers
              (andModify acc senderKey (fun a => a + txnTotalSpend t)) with
          | none => none
          | some acc2 => undoTxns names rest acc2

/-- `pop_block`: undo the name changes, undo the transactions, then call
`push_to_back` on the block-size window and on the time window. -/
def popBlock (ub : UndoBlock) (st : BlockchainState) : Option BlockchainState :=
  let names2 := undoNameChanges ub.nameChanges st.nameSet
  match undoTxns names2 ub.txns st.accountSet with
  | none => none
  | some acc2 =>
      match pushToBack st.last100BlockSizes ub.removedBlockSize with
      | none => none
      | some sizes2 =>
          match pushToBack st.last720Times ub.removedTime with
          | none => none
          | some times2 =>
              some { st with
                       accountSet := acc2
                       nameSet := names2
                       last100BlockSizes := sizes2
                       last720Times := times2 }

/-! ### Big-endian value of a byte string (for the difficulty comparison) -/

/-- The unsigned integer denoted by a byte list read big-endian (index 0 most
significant). -/
def beNat : List Nat → Nat
  | [] => 0
  | b :: bs => b * 256 ^ bs.length + beNat bs

/-! ### Decidable equality for `Except` results -/

instance [DecidableEq e] [DecidableEq a] : DecidableEq (Except e a)
  | .ok x, .ok y => if h : x = y then isTrue (by rw [h]) else isFalse (by simp [h])
  | .error x, .error y => if h : x = y then isTrue (by rw [h]) else isFalse (by simp [h])
  | .ok _, .error _ => isFalse (by simp)
  | .error _, .ok _ => isFalse (by simp)

/-! ### Concrete fixtures

A genesis-like state (one funded account, full rolling windows, permissive
difficulty) and a handful of concrete blocks and transactions, used to evaluate the
embedded functions on explicit inputs. The cryptographic oracles are instantiated
with trivial functions, which is legitimate because every validation function is
parameterised over them. -/

/-- Oracle: every 32-byte value is accepted as a curve point. -/
def isPointT : List Nat → Bool := fun _ => true

/-- Oracle: every signature verifies. -/
def verifyT : List Nat → List Nat → List Nat → Bool := fun _ _ _ => true

/-- Oracle: a constant 32-byte hash. -/
def hashZ : List Nat → List Nat := fun _ => List.replicate 32 0

/-- A funded account key. -/
def keyA : List Nat := 1 :: List.replicate 31 0

/-- A receiving account key. -/
def keyB : List Nat := 2 :: List.replicate 31 0

/-- The all-zero key used as the coinbase sender. -/
def key0 : List Nat := List.replicate 32 0

/-- The previous-block header of the fixture state. -/
def prevHeaderT : Header := ⟨List.replicate 32 0, List.replicate 32 0, 100, 0⟩

/-- The previous block of the fixture state. -/
def prevBlockT : Block := ⟨prevHeaderT, [], []⟩

/-- Genesis-like state: `keyA` holds exactly 58 800 001 base units (the total spend
of `txn1`), both rolling windows are full, and the difficulty accepts every hash. -/
def stA : BlockchainState :=
  ⟨[(keyA, 58800001)], [], List.replicate 32 255, 0,
   List.replicate 720 100, List.replicate 100 10000, prevBlockT⟩

/-- Same state with `keyA` holding 117 600 001: enough for either copy of `txn1`
alone but not for both together. -/
def stC3 : BlockchainState :=
  ⟨[(keyA, 117600001)], [], List.replicate 32 255, 0,
   List.replicate 720 100, List.replicate 100 10000, prevBlockT⟩

/-- Coinbase transaction paying 0 to `keyA`. -/
def cbT : Txn := ⟨.key key0, [(.key keyA, 0)], List.replicate 64 0, 0⟩

/-- A transaction from `keyA` sending 1 to `keyB`; its encoding is 147 bytes, so the
fee floor is `147 * 400 000 = 58 800 000` and the total spend is 58 800 001. -/
def txn1 : Txn := ⟨.key keyA, [(.key keyB, 1)], List.replicate 64 1, 58800000⟩

/-- A block holding the coinbase and `txn1`, wired to pass every check of
`validateBlock` against `stA` under the trivial oracles. -/
def blockB2 : Block :=
  ⟨⟨List.replicate 32 0, List.replicate 32 0, 100, 7⟩, [cbT, txn1], []⟩

/-- Coinbase claiming 300 000 000 000 (the amount of the `invalid_coinbase` repo
test), above `DEFAULT_COINBASE + 0` in fees. -/
def cb300 : Txn := ⟨.key key0, [(.key keyA, 300000000000)], List.replicate 64 0, 0⟩

/-- Coinbase with two receivers. -/
def cb2r : Txn := ⟨.key key0, [(.key keyA, 0), (.key keyB, 0)], List.replicate 64 0, 0⟩

/-- Coinbase with an empty receiver list. -/
def cbEmpty : Txn := ⟨.key key0, [], List.replicate 64 0, 0⟩

/-- A block whose only transaction is the receiverless coinbase, wired to pass the
header and size checks against `stA`. -/
def blockW : Block :=
  ⟨⟨List.replicate 32 0, List.replicate 32 0, 100, 0⟩, [cbEmpty], []⟩

/-- The byte string of the one-byte name used in the rename fixtures. -/
def nameN : List Nat := [110]

/-- Current owner of `nameN` in the rename fixture. -/
def keyOwn : List Nat := 3 :: List.replicate 31 0

/-- The distinct incoming key of the rename fixture. -/
def keyNew : List Nat := 4 :: List.replicate 31 0

/-- Name map in which `nameN` is already owned by `keyOwn`. -/
def namesT : NameMap := [(nameN, keyOwn)]

/-- Oracle modelling a signature produced by `keyNew` only: verification succeeds
exactly when the public key argument is `keyNew`. -/
def verifyNew : List Nat → List Nat → List Nat → Bool := fun _ _ pk => decide (pk = keyNew)

/-- A rename of the already-owned `nameN` submitted by `keyNew`; its encoding is 106
bytes, so the fee floor is `106 * 100 000 000`. -/
def opT : RenameOp := ⟨keyNew, List.replicate 64 9, nameN, 10600000000⟩

set_option maxRecDepth 8000

/-! ### Helper lemmas -/

/-- A byte list with all entries below 256 denotes a value below `256 ^ length`. -/
theorem beNat_lt_pow (l : List Nat) (hb : ∀ b ∈ l, b < 256) : beNat l < 256 ^ l.length := by
  induction l with
  | nil => simp [beNat]
  | cons a l ih =>
      have ha : a < 256 := hb a (List.mem_cons_self a l)
      have hl : beNat l < 256 ^ l.length := ih fun b hbl => hb b (List.mem_cons_of_mem a hbl)
      have hstep : a * 256 ^ l.length + beNat l < (a + 1) * 256 ^ l.length := by
        calc a * 256 ^ l.length + beNat l < a * 256 ^ l.length + 256 ^ l.length := by omega
        _ = (a + 1) * 256 ^ l.length := by ring
      calc beNat (a :: l) = a * 256 ^ l.length + beNat l := rfl
      _ < (a + 1) * 256 ^ l.length := hstep
      _ ≤ 256 * 256 ^ l.length := Nat.mul_le_mul_right _ (by omega)
      _ = 256 ^ (a :: l).length := by
          simp [List.length_cons, pow_succ]
          ring

/-- Byte-wise comparison from the most significant byte agrees with the numeric
order of the big-endian values, for equal-length byte lists. -/
theorem meetsDifficulty_iff_le (v d : List Nat) (hlen : v.length = d.length)
    (hv : ∀ b ∈ v, b < 256) (hd : ∀ b ∈ d, b < 256) :
    meetsDifficulty v d = true ↔ beNat v ≤ beNat d := by
  induction v generalizing d with
  | nil =>
      cases d with
      | nil => simp [meetsDifficulty, beNat]
      | cons b ds => simp at hlen
  | cons a vs ih =>
      cases d with
      | nil => simp at hlen
      | cons b ds =>
          have hlen2 : vs.length = ds.length := by simpa using hlen
          have hvs : ∀ x ∈ vs, x < 256 := fun x hx => hv x (List.mem_cons_of_mem a hx)
          have hds : ∀ x ∈ ds, x < 256 := fun x hx => hd x (List.mem_cons_of_mem b hx)
          have hvlt : beNat vs < 256 ^ vs.length := beNat_lt_pow vs hvs
          have hdlt : beNat ds < 256 ^ ds.length := beNat_lt_pow ds hds
          show (if a < b then true else if b < a then false else meetsDifficulty vs ds) = true
              ↔ a * 256 ^ vs.length + beNat vs ≤ b * 256 ^ ds.length + beNat ds
          rcases lt_trichotomy a b with hab | hab | hab
          · rw [if_pos hab]
            simp only [true_iff]
            refine le_of_lt ?_
            calc a * 256 ^ vs.length + beNat vs < (a + 1) * 256 ^ vs.length := by
                  have h256 := hvlt
                  ring_nf
                  omega
            _ ≤ b * 256 ^ vs.length := Nat.mul_le_mul_right _ (by omega)
            _ = b * 256 ^ ds.length := by rw [hlen2]
            _ ≤ b * 256 ^ ds.length + beNat ds := Nat.le_add_right _ _
          · rw [if_neg (by omega), if_neg (by omega)]
            subst hab
            rw [hlen2]
            constructor
            · intro h
              exact Nat.add_le_add_left ((ih ds hlen2 hvs hds).1 h) _
            · intro h
              exact (ih ds hlen2 hvs hds).2 (by omega)
          · rw [if_neg (by omega), if_pos hab]
            simp only [Bool.false_eq_true, false_iff, not_le]
            calc b * 256 ^ ds.length + beNat ds < (b + 1) * 256 ^ ds.length := by
                  have h256 := hdlt
                  ring_nf
                  omega
            _ ≤ a * 256 ^ ds.length := Nat.mul_le_mul_right _ (by omega)
            _ = a * 256 ^ vs.length := by rw [hlen2]
            _ ≤ a * 256 ^ vs.length + beNat vs := Nat.le_add_right _ _

/-- The loop of `push_to_back` panics whenever it runs at least one iteration that
starts at the last index: when `i + count` equals the array length and `count ≥ 1`,
the final iteration writes at index `length` and fails. -/
theorem pushToBackIter_panics (count : Nat) :
    ∀ (l : List α) (i : Nat), 0 < count → i + count = l.length →
      pushToBackIter l i count = none := by
  induction count with
  | zero => intro l i h; omega
  | succ c ih =>
      intro l i _ hic
      have hi : i < l.length := by omega
      have hget : getP l i = some l[i] := by
        unfold getP
        rw [List.get?_eq_getElem?]
        exact List.getElem?_eq_getElem hi
      rcases Nat.eq_zero_or_pos c with hc | hc
      · subst hc
        have hset : setP l (i + 1) l[i] = none := by
          unfold setP
          rw [if_neg (by omega)]
        simp [pushToBackIter, hget, hset]
      · have hlt : i + 1 < l.length := by omega
        have hset : setP l (i + 1) l[i] = some (l.set (i + 1) l[i]) := by
          unfold setP
          rw [if_pos hlt]
        have hlen : (l.set (i + 1) l[i]).length = l.length := List.length_set l _ _
        simp only [pushToBackIter, hget, hset]
        exact ih _ (i + 1) hc (by omega)

/-- Evaluation of the fixture block size through the coinbase curve. -/
theorem calcCoinbase_382 : calcCoinbase 382 10000 = 200000000000 := by
  norm_num [calcCoinbase, DEFAULT_COINBASE]

/-- The fixture transaction list passes `check_txns` against `stA`. -/
theorem checkTxns_B2 : checkTxns isPointT verifyT blockB2.txns stA
    (calcCoinbase (blockSize blockB2) 10000) = some (Except.ok ()) := by
  rw [show blockSize blockB2 = 382 from by decide, calcCoinbase_382]
  decide

/-- `blockB2` is valid against `stA` under the trivial oracles. -/
theorem validate_B2 : validateBlock isPointT verifyT hashZ blockB2 stA = some (Except.ok ()) := by
  unfold validateBlock
  rw [show medianBlockSize stA.last100BlockSizes = some 10000 from by decide]
  simp only []
  rw [checkTxns_B2]
  decide

/-! ### Claim theorems -/

/-- C1: the claim states that for every valid block and state, `pop_block` after
`push_block` restores the state exactly. The code refutes it: on the fixture —
`blockB2` is accepted by `validate_block` against `stA` and `push_block` succeeds —
`pop_block` panics (in `push_to_back`, whose loop writes one slot past the end of the
100-entry block-size window), so no state at all is restored. -/
theorem c1_push_then_pop_panics :
    validateBlock isPointT verifyT hashZ blockB2 stA = some (Except.ok ())
    ∧ (pushBlock blockB2 stA).isSome = true
    ∧ ((pushBlock blockB2 stA).bind fun p => popBlock p.1 p.2) = none :=
  ⟨validate_B2, by decide, by decide⟩

/-- C2: the claim states that no reachable account balance is 0 because the sender
debit removes exhausted accounts. The code refutes it: applying the valid `blockB2`
(whose `txn1` spends the exact balance of `keyA`) to `stA` leaves `keyA` in the
account map bound to 0, since the sender debit is a bare `and_modify`. -/
theorem c2_zero_balance_entry_remains :
    validateBlock isPointT verifyT hashZ blockB2 stA = some (Except.ok ())
    ∧ (pushBlock blockB2 stA).map (fun p => alookup p.2.accountSet keyA) = some (some 0) :=
  ⟨validate_B2, by decide⟩

/-- C3: the claim states that per-sender cumulative spend is tracked, so two
transactions that together overspend are rejected. The code refutes it: the running
map is updated with `and_modify` and no `or_insert`, so it stays empty; a block with
two copies of `txn1` — each alone affordable from the 117 600 001 balance, together
exceeding it — passes `check_txns`. -/
theorem c3_cumulative_overspend_accepted :
    checkTxns isPointT verifyT [cbT, txn1, txn1] stC3 0 = some (Except.ok ())
    ∧ alookup stC3.accountSet keyA = some 117600001
    ∧ txnTotalSpend txn1 ≤ 117600001
    ∧ txnTotalSpend txn1 + txnTotalSpend txn1 > 117600001 := by
  refine ⟨by decide, by decide, by decide, by decide⟩

/-- C4: the claim states that a rename of an existing name is verified against the
current owner of the name. The code refutes it: with an oracle under which only
`keyNew` verifies (so the owner `keyOwn` has not signed), the rename of the owned
`nameN` submitted by `keyNew` is accepted, because the verification call uses `op.pk`
and the computed `signer` is never used. -/
theorem c4_rename_transfer_without_owner_signature_accepted :
    alookup namesT opT.newName = some keyOwn
    ∧ keyOwn ≠ opT.pk
    ∧ verifyNew opT.sig (hashZ (encodeNameChange opT)) keyOwn = false
    ∧ checkNameChange isPointT verifyNew hashZ opT namesT = some (Except.ok ()) := by
  refine ⟨by decide, by decide, by decide, by decide⟩

/-- C5: the claim states that `push_block` sets the previous header to the header of
the applied block, increments the height, and stores the old previous header in the
undo record. The code refutes it: after applying the valid `blockB2` the state still
carries the old previous block and the old height (and the `UndoBlock` struct has no
previous-header field at all). -/
theorem c5_push_block_leaves_header_and_height :
    validateBlock isPointT verifyT hashZ blockB2 stA = some (Except.ok ())
    ∧ (pushBlock blockB2 stA).map (fun p => (p.2.previousBlock, p.2.height))
        = some (stA.previousBlock, stA.height)
    ∧ stA.previousBlock.header ≠ blockB2.header :=
  ⟨validate_B2, by decide, by decide⟩

/-- C6: the claim states that an overpaying coinbase is rejected with the exact
message text `Coinbase amount is invalid`. The code rejects it with a different
string, `Coinbase transaction produces more currency than allowed` (the repo test
asserts the former). The multi-receiver rejection of the claim does hold. -/
theorem c6_coinbase_error_message_differs :
    checkTxns isPointT verifyT [cb300] stA 200000000000
      = some (Except.error (Error.txnValidationError
          "Coinbase transaction produces more currency than allowed"))
    ∧ "Coinbase transaction produces more currency than allowed" ≠ "Coinbase amount is invalid"
    ∧ checkTxns isPointT verifyT [cb2r] stA 200000000000
      = some (Except.error (Error.txnValidationError "Coinbase txn had more than 1 reciever")) := by
  refine ⟨by decide, by decide, by decide⟩

/-- C7 counterexample: at `B = 40000`, `M = 10000` both guard conditions hold and
`p = 1 − (B − 10000 − M)/M = −1 ≤ 0`, yet `calc_coinbase` returns
`200 000 000 000`, not 0 — the square of a non-positive `p` is non-negative, so the
claim that every such pair yields 0 is false. (All floating-point operations of the
source are exact at this input, so the rational model agrees with the `f64` code
bit for bit.) -/
theorem c7_counterexample_p_nonpositive_nonzero :
    ((40000 : ℚ) - 10000 > 10000 ∧ (40000 : ℚ) - 10000 > 10000)
    ∧ 1 - (((40000 : ℚ) - 10000 - 10000) / 10000) ≤ 0
    ∧ calcCoinbase 40000 10000 = 200000000000
    ∧ (200000000000 : Nat) ≠ 0 := by
  refine ⟨by norm_num, by norm_num, ?_, by norm_num⟩
  norm_num [calcCoinbase, DEFAULT_COINBASE]
  decide

/-- C7 (amended): on the input family `B = 10000 + (k + 1) * M` with `0 < M`,
`1 ≤ k ≤ 6711` and `B < 2 ^ 53` — inputs on which every `f64` operation of the
source is exact (the quotient `(B − 10000 − M)/M` is the integer `k` and every
intermediate value stays below `2 ^ 53`), so the rational model is bit-faithful —
the percentage `p = 1 − (B − 10000 − M)/M` equals `1 − k ≤ 0`, and
`calc_coinbase B M` equals `floor((DEFAULT_COINBASE/1000) · p²) · 1000`, which is
`200 000 000 · (k − 1)² · 1000`; for `k ≥ 2` (that is `p ≤ −1`) this value is
nonzero, contrary to the claimed 0 for `p ≤ 0`. -/
theorem c7_coinbase_formula (M k : Nat) (h0 : 0 < M) (hk1 : 1 ≤ k) (hk : k ≤ 6711)
    (hB : 10000 + (k + 1) * M < 2 ^ 53) :
    ((1 : ℚ) - ((((10000 + (k + 1) * M : Nat) : ℚ) - 10000 - (M : ℚ)) / (M : ℚ))
        = 1 - (k : ℚ))
    ∧ (1 : ℚ) - (k : ℚ) ≤ 0
    ∧ calcCoinbase (10000 + (k + 1) * M) M
        = (Int.floor ((DEFAULT_COINBASE : ℚ) / 1000 * ((1 : ℚ) - (k : ℚ)) ^ 2)).toNat * 1000
    ∧ calcCoinbase (10000 + (k + 1) * M) M = 200000000 * (k - 1) ^ 2 * 1000
    ∧ (2 ≤ k → calcCoinbase (10000 + (k + 1) * M) M ≠ 0) := by
  have hM : (M : ℚ) ≠ 0 := by
    exact_mod_cast Nat.pos_iff_ne_zero.mp h0
  have hk1q : (1 : ℚ) ≤ (k : ℚ) := by exact_mod_cast hk1
  have hM1 : (1 : ℚ) ≤ (M : ℚ) := by exact_mod_cast h0
  have hp : (1 : ℚ) - ((((10000 + (k + 1) * M : Nat) : ℚ) - 10000 - (M : ℚ)) / (M : ℚ))
      = 1 - (k : ℚ) := by
    push_cast
    field_simp
    ring
  have hguard : ((10000 + (k + 1) * M : Nat) : ℚ) - M > 10000
      ∧ ((10000 + (k + 1) * M : Nat) : ℚ) - 10000 > M := by
    push_cast
    constructor <;> nlinarith
  have hfloor : Int.floor ((DEFAULT_COINBASE : ℚ) / 1000 * ((1 : ℚ) - (k : ℚ)) ^ 2)
      = ((200000000 * (k - 1) ^ 2 : ℕ) : ℤ) := by
    have h1 : ((1 : ℚ) - (k : ℚ)) ^ 2 = (((k - 1 : ℕ) : ℚ)) ^ 2 := by
      rw [Nat.cast_sub hk1]
      push_cast
      ring
    have h2 : (DEFAULT_COINBASE : ℚ) / 1000 * (((k - 1 : ℕ) : ℚ)) ^ 2
        = ((200000000 * (k - 1) ^ 2 : ℕ) : ℚ) := by
      norm_num [DEFAULT_COINBASE]
    rw [h1, h2, Int.floor_natCast]
  have hk6710 : k - 1 ≤ 6710 := by omega
  have hsq : (k - 1) ^ 2 ≤ 6710 ^ 2 := Nat.pow_le_pow_left hk6710 2
  have hbound : 200000000 * (k - 1) ^ 2 ≤ 2 ^ 64 - 1 := by
    calc 200000000 * (k - 1) ^ 2 ≤ 200000000 * 6710 ^ 2 :=
          Nat.mul_le_mul_left _ hsq
    _ ≤ 2 ^ 64 - 1 := by norm_num
  have hlt : 200000000 * (k - 1) ^ 2 * 1000 < 2 ^ 64 := by
    calc 200000000 * (k - 1) ^ 2 * 1000 ≤ 200000000 * 6710 ^ 2 * 1000 :=
          Nat.mul_le_mul_right _ (Nat.mul_le_mul_left _ hsq)
    _ < 2 ^ 64 := by norm_num
  have hval : calcCoinbase (10000 + (k + 1) * M) M = 200000000 * (k - 1) ^ 2 * 1000 := by
    rw [calcCoinbase, if_pos hguard, hp]
    simp only []
    rw [hfloor, Int.toNat_natCast, min_eq_left hbound]
    exact Nat.mod_eq_of_lt hlt
  refine ⟨hp, by linarith, ?_, hval, ?_⟩
  · rw [hval, hfloor, Int.toNat_natCast]
  · intro h2
    rw [hval]
    have hpos : 0 < (k - 1) ^ 2 := pow_pos (by omega) 2
    positivity

/-- C7 witness: the exact family at `M = 10000`, `k = 3` (so `B = 50000`,
`p = −2`), where the coinbase is `200 000 000 · 4 · 1000`. -/
theorem c7_coinbase_formula_witness :
    0 < 10000 ∧ 1 ≤ 3 ∧ 3 ≤ 6711 ∧ 10000 + (3 + 1) * 10000 < 2 ^ 53
    ∧ (((1 : ℚ) - ((((10000 + (3 + 1) * 10000 : Nat) : ℚ) - 10000 - (10000 : ℚ))
          / (10000 : ℚ)) = 1 - (3 : ℚ))
      ∧ (1 : ℚ) - (3 : ℚ) ≤ 0
      ∧ calcCoinbase (10000 + (3 + 1) * 10000) 10000
          = (Int.floor ((DEFAULT_COINBASE : ℚ) / 1000
              * ((1 : ℚ) - (3 : ℚ)) ^ 2)).toNat * 1000
      ∧ calcCoinbase (10000 + (3 + 1) * 10000) 10000 = 200000000 * (3 - 1) ^ 2 * 1000
      ∧ (2 ≤ 3 → calcCoinbase (10000 + (3 + 1) * 10000) 10000 ≠ 0)) :=
  ⟨by decide, by decide, by decide, by decide,
   c7_coinbase_formula 10000 3 (by decide) (by decide) (by decide) (by decide)⟩

/-- C8: the claim states that `push_to_back` totally shifts the elements toward the
top and writes the new value at index 0. The code refutes it: for every array of
length at least 2 the loop `for i in 1..len` executes `arr[i + 1] = arr[i]` at
`i = len − 1`, writing out of bounds, so the function always panics. -/
theorem c8_push_to_back_panics (l : List α) (item : α) (h : 2 ≤ l.length) :
    pushToBack l item = none := by
  unfold pushToBack
  rw [pushToBackIter_panics (l.length - 1) l 1 (by omega) (by omega)]

/-- C8 witness: the panic at the concrete two-element window `[0, 0]`. -/
theorem c8_push_to_back_panics_witness :
    2 ≤ ([0, 0] : List Nat).length ∧ pushToBack ([0, 0] : List Nat) 1 = none :=
  ⟨by decide, c8_push_to_back_panics [0, 0] 1 (by decide)⟩

/-- C9: `meets_difficulty` returns true exactly when the 32-byte hash, read as an
unsigned big-endian integer, is at most the 32-byte target; equality passes. -/
theorem c9_meets_difficulty_iff_be_le (h d : List Nat)
    (hh : h.length = 32) (hd : d.length = 32)
    (hhb : ∀ b ∈ h, b < 256) (hdb : ∀ b ∈ d, b < 256) :
    meetsDifficulty h d = true ↔ beNat h ≤ beNat d :=
  meetsDifficulty_iff_le h d (by rw [hh, hd]) hhb hdb

/-- C9 witness: the comparison at the all-zero hash against the all-255 target. -/
theorem c9_meets_difficulty_witness :
    (List.replicate 32 0).length = 32
    ∧ (List.replicate 32 255).length = 32
    ∧ (∀ b ∈ List.replicate 32 0, b < 256)
    ∧ (∀ b ∈ List.replicate 32 255, b < 256)
    ∧ (meetsDifficulty (List.replicate 32 0) (List.replicate 32 255) = true
        ↔ beNat (List.replicate 32 0) ≤ beNat (List.replicate 32 255)) :=
  ⟨by decide, by decide, by decide, by decide,
   c9_meets_difficulty_iff_be_le (List.replicate 32 0) (List.replicate 32 255)
     (by decide) (by decide) (by decide) (by decide)⟩

/-- C10: a block whose coinbase has an empty receiver list and which passes the
header checks, the size ceiling, and the per-transaction loop makes `validate_block`
panic (the unconditional `recievers[0]` indexing) instead of returning an error:
the embedded function yields `none`, never `some (Except.error _)`. -/
theorem c10_validate_block_panics_on_empty_coinbase_recievers
    (isPoint : List Nat → Bool) (verify : List Nat → List Nat → List Nat → Bool)
    (hash : List Nat → List Nat) (b : Block) (st : BlockchainState)
    (cb : Txn) (m : Nat) (q : Nat × AccountMap)
    (hhead : b.txns.get? 0 = some cb)
    (hcbr : cb.recievers = [])
    (hdiff : meetsDifficulty (hashHeader hash b.header) st.difficulty = true)
    (htime : ¬ b.header.time < st.previousBlock.header.time)
    (hmerkle : merkleRoot hash b.txns b.nameChanges = b.header.merkleRoot)
    (hprev : hash (encodeHeader st.previousBlock.header) = b.header.prevBlockHash)
    (hmed : medianBlockSize st.last100BlockSizes = some m)
    (hsize : ¬ (blockSize b > 20000 ∧ blockSize b > 2 * m))
    (hloop : checkTxnsLoop isPoint verify st b.txns 0 0 [] = some (Except.ok q)) :
    validateBlock isPoint verify hash b st = none := by
  have hne : ¬ b.txns.length < 1 := by
    cases hl : b.txns with
    | nil => rw [hl] at hhead; simp [List.get?] at hhead
    | cons t ts => simp [hl]
  have hct : checkTxns isPoint verify b.txns st (calcCoinbase (blockSize b) m) = none := by
    unfold checkTxns
    rw [hloop, hhead]
    simp only [hcbr]
    rfl
  unfold validateBlock
  rw [if_neg hne, hdiff]
  simp only [Bool.not_true]
  rw [if_neg (by simp), if_neg htime, if_neg (by simp [hmerkle]), if_neg (by simp [hprev]), hmed]
  simp only []
  rw [if_neg hsize, hct]

/-- C10 witness: the concrete receiverless-coinbase block `blockW` against `stA`
under the trivial oracles. -/
theorem c10_validate_block_panics_witness :
    blockW.txns.get? 0 = some cbEmpty
    ∧ cbEmpty.recievers = []
    ∧ meetsDifficulty (hashHeader hashZ blockW.header) stA.difficulty = true
    ∧ ¬ blockW.header.time < stA.previousBlock.header.time
    ∧ merkleRoot hashZ blockW.txns blockW.nameChanges = blockW.header.merkleRoot
    ∧ hashZ (encodeHeader stA.previousBlock.header) = blockW.header.prevBlockHash
    ∧ medianBlockSize stA.last100BlockSizes = some 10000
    ∧ ¬ (blockSize blockW > 20000 ∧ blockSize blockW > 2 * 10000)
    ∧ checkTxnsLoop isPointT verifyT stA blockW.txns 0 0 [] = some (Except.ok (0, []))
    ∧ validateBlock isPointT verifyT hashZ blockW stA = none :=
  ⟨by decide, by decide, by decide, by decide, by decide, by decide, by decide, by decide,
   by decide,
   c10_validate_block_panics_on_empty_coinbase_recievers isPointT verifyT hashZ blockW stA
     cbEmpty 10000 (0, []) (by decide) (by decide) (by decide) (by decide) (by decide)
     (by decide) (by decide) (by decide) (by decide)⟩

end Gold2
